import Mathlib

/-!
Verification of the `StreamingService` streaming client (SSE-over-fetch with
WebSocket fallback) against its design specification.

Modelling conventions:
* JavaScript strings are modelled as `List Char`; the decoded response body
  and every SSE line / WebSocket frame is such a character list.
* `JSON.parse` is a platform builtin; the stream-processing functions take an
  abstract `parse : List Char → Option StreamEvent` parameter (a parse failure,
  i.e. a thrown exception, is `none`).  A concrete instance
  `parseStreamEvent` for the documented wire shape is used on concrete inputs.
* Callback invocations (`onMessage`/`onError`/`onComplete`) are recorded in
  an ordered trace instead of being executed.
-/

/-- A typed stream event, the wire envelope shared by both transports. -/
structure StreamEvent where
  type : String
  data : String
deriving DecidableEq

/-- A recorded callback invocation.  `onMessage` is the `onContent` callback
of the specification (the source names the parameter `onMessage`). -/
inductive Callback where
  | onMessage (s : String)
  | onError (s : String)
  | onComplete (s : String)
deriving DecidableEq

/-- Capacity of the diagnostic ring buffer (`this.maxBufferSize = 1000`). -/
def maxBufferSize : Nat := 1000

/-- Maximum number of WebSocket reconnect attempts
(`this.maxReconnectAttempts = 5`). -/
def maxReconnectAttempts : Nat := 5

/-- `addToBuffer(data)`: push the event, then `shift()` (drop the oldest
entry) whenever the length exceeds `maxBufferSize`.  The capture timestamp
attached in the source does not alter the event fields and is omitted. -/
def addToBuffer (buf : List α) (d : α) : List α :=
  let b := buf ++ [d]
  if b.length > maxBufferSize then b.tail else b

/-- `getRecentBuffer(n)`: `this.buffer.slice(-n)`.  For `n = 0` JavaScript
evaluates `slice(-0) = slice(0)`, returning the whole buffer; for `n ≥ 1`
`slice(-n)` starts at `max(length - n, 0)`, i.e. `List.drop (length - n)`. -/
def getRecentBuffer (buf : List α) (n : Nat) : List α :=
  if n = 0 then buf else buf.drop (buf.length - n)

/-- The last `n` entries of a list in chronological order, as the
specification words it ("the last n buffered entries, oldest of the requested
slice first"). -/
def specLastN (l : List α) (n : Nat) : List α :=
  (l.reverse.take n).reverse

/-- The literal prefix `"data: "` checked by `line.startsWith('data: ')`. -/
def dataMarker : List Char := "data: ".data

/-- `chunk.split('\n')` of JavaScript on a character list:
`splitLines [] = [[]]` (splitting the empty string yields `[""]`), and a
separator at the front opens a fresh segment. -/
def splitLines : List Char → List (List Char)
  | [] => [[]]
  | c :: rest =>
    if c = '\n' then [] :: splitLines rest
    else
      match splitLines rest with
      | [] => [[c]]
      | l :: ls => (c :: l) :: ls

/-- One SSE line: if it starts with `"data: "`, parse `line.substring(6)` as
a StreamEvent; otherwise the line is ignored.  A `none` result covers both a
non-`data:` line and a JSON parse failure (dropped silently in the source). -/
def processLine (parse : List Char → Option StreamEvent) (l : List Char) :
    Option StreamEvent :=
  if dataMarker.isPrefixOf l then parse (l.drop 6) else none

/-- State threaded through a stream run: the instance buffer plus the ordered
trace of caller-visible callback invocations. -/
structure SSEState where
  buffer : List StreamEvent
  trace : List Callback
deriving DecidableEq

/-- The inner `for (const line of lines)` loop of `startSSEStream`.  Returns
the updated state and whether the loop executed `return` (a terminal `done`
or `error` event), which abandons the rest of the lines and the read loop. -/
def sseLines (parse : List Char → Option StreamEvent) :
    List (List Char) → SSEState → SSEState × Bool
  | [], st => (st, false)
  | l :: rest, st =>
    match processLine parse l with
    | none => sseLines parse rest st
    | some e =>
      let st1 : SSEState := { buffer := addToBuffer st.buffer e, trace := st.trace }
      if e.type = "content" then
        sseLines parse rest { st1 with trace := st1.trace ++ [Callback.onMessage e.data] }
      else if e.type = "done" then
        ({ st1 with trace := st1.trace ++ [Callback.onComplete e.data] }, true)
      else if e.type = "error" then
        ({ st1 with trace := st1.trace ++ [Callback.onError e.data] }, true)
      else
        sseLines parse rest st1

/-- The `while (true)` read loop of `startSSEStream`: each transport chunk is
decoded and split into lines independently; when the reader reports `done`
the loop invokes `onComplete('')` and breaks. -/
def sseChunks (parse : List Char → Option StreamEvent) :
    List (List Char) → SSEState → SSEState
  | [], st => { st with trace := st.trace ++ [Callback.onComplete ""] }
  | c :: rest, st =>
    match sseLines parse (splitLines c) st with
    | (st1, true) => st1
    | (st1, false) => sseChunks parse rest st1

/-- An HTTP response for the SSE path: status code plus the decoded text
chunks delivered by successive `reader.read()` calls. -/
structure Response where
  status : Nat
  chunks : List (List Char)

/-- `response.ok` of the fetch API: status in the inclusive range 200–299. -/
def responseOk (status : Nat) : Bool :=
  decide (200 ≤ status ∧ status ≤ 299)

/-- The message of the error thrown on a non-ok response,
`HTTP error! status: $\x7bresponse.status\x7d`, which the surrounding
`catch` forwards to `onError(error.message)`. -/
def httpErrorMessage (status : Nat) : String :=
  "HTTP error! status: " ++ toString status

/-- `startSSEStream`: on a non-2xx status the thrown error is caught and
reported once via `onError`; otherwise the body is read chunk by chunk. -/
def startSSEStream (parse : List Char → Option StreamEvent) (r : Response)
    (buf : List StreamEvent) : SSEState :=
  if responseOk r.status then
    sseChunks parse r.chunks { buffer := buf, trace := [] }
  else
    { buffer := buf, trace := [Callback.onError (httpErrorMessage r.status)] }

/-- Reference run used to compare chunkings: process a flat list of lines
and, when no terminal event occurred, record the implicit `onComplete('')`
issued at end of stream. -/
def sseAllLines (parse : List Char → Option StreamEvent)
    (ls : List (List Char)) (st : SSEState) : SSEState :=
  match sseLines parse ls st with
  | (st1, true) => st1
  | (st1, false) => { st1 with trace := st1.trace ++ [Callback.onComplete ""] }

/-- Assemble a transport chunk from whole lines, each terminated by `'\n'`. -/
def chunkOfLines (g : List (List Char)) : List Char :=
  (g.map (fun l => l ++ ['\n'])).flatten

/-- All events a chunk sequence carries: every chunk is line-split and each
line fed through `processLine`. -/
def sseEvents (parse : List Char → Option StreamEvent)
    (cs : List (List Char)) : List StreamEvent :=
  ((cs.map splitLines).flatten).filterMap (processLine parse)

/-- State of the WebSocket session: buffer, callback trace, and whether the
socket is still open (`close()` has not run). -/
structure WSState where
  buffer : List StreamEvent
  trace : List Callback
  wsOpen : Bool
deriving DecidableEq

/-- The `websocket.onmessage` handler for one inbound frame: parse the frame
as JSON (a failure is logged and dropped), buffer the event, then dispatch —
`content` fires `onMessage`, `done` fires `onComplete` and calls
`this.close()`, `error` fires `onError` and leaves the socket open. -/
def wsMessage (parse : List Char → Option StreamEvent) (frame : List Char)
    (st : WSState) : WSState :=
  match parse frame with
  | none => st
  | some e =>
    let st1 : WSState := { st with buffer := addToBuffer st.buffer e }
    if e.type = "content" then
      { st1 with trace := st1.trace ++ [Callback.onMessage e.data] }
    else if e.type = "done" then
      { st1 with trace := st1.trace ++ [Callback.onComplete e.data], wsOpen := false }
    else if e.type = "error" then
      { st1 with trace := st1.trace ++ [Callback.onError e.data] }
    else
      st1

/-- Deliver a sequence of frames to the `onmessage` handler; once the socket
has been closed (`done` teardown) no further frames arrive. -/
def wsFrames (parse : List Char → Option StreamEvent) :
    List (List Char) → WSState → WSState
  | [], st => st
  | f :: rest, st =>
    if st.wsOpen then wsFrames parse rest (wsMessage parse f st) else st

/-- The exponential-backoff delay, `Math.min(1000 * Math.pow(2, k), 16000)`,
computed from the already-incremented attempt counter `k`. -/
def reconnectDelay (k : Nat) : Nat :=
  min (1000 * 2 ^ k) 16000

/-- The `websocket.onclose` handler acting on the reconnect counter: when the
counter is below `maxReconnectAttempts`, `reconnect()` increments it and
schedules a retry after `reconnectDelay`; otherwise nothing is scheduled. -/
def onCloseEvent (attempts : Nat) : Option (Nat × Nat) :=
  if attempts < maxReconnectAttempts then
    some (attempts + 1, reconnectDelay (attempts + 1))
  else
    none

/-- The delays scheduled across `n` consecutive close events starting from a
given counter value (no intervening successful open). -/
def closeSequence : Nat → Nat → List Nat
  | 0, _ => []
  | n + 1, attempts =>
    match onCloseEvent attempts with
    | none => []
    | some (a1, d) => d :: closeSequence n a1

/-- Which transport the active session fields designate. -/
inductive Transport where
  | sse
  | ws
deriving DecidableEq

/-- The mutable connection-management fields of a `StreamingService`
instance.  The handle values are opaque; only null/non-null matters. -/
structure ServiceState where
  eventSource : Option Unit
  websocket : Option Unit
  reconnectAttempts : Nat
deriving DecidableEq

/-- The constructor: both transport handles null, counter zero. -/
def initService : ServiceState :=
  { eventSource := none, websocket := none, reconnectAttempts := 0 }

/-- The operations of `StreamingService` that touch the connection fields.
`startSSE` models `startSSEStream` (which never assigns either handle),
`startWS` models `startWebSocketStream` (assigns `this.websocket`),
`wsOpen` the `onopen` handler (resets the counter), `wsClose` the `onclose`
handler (guarded counter increment via `reconnect()`), `fireReconnect` the
`setTimeout` body of `reconnect()`, and `closeConn` the `close()` method. -/
inductive ServiceOp where
  | startSSE
  | startWS
  | wsOpen
  | wsClose
  | fireReconnect
  | closeConn

/-- Effect of each operation on the connection fields, read off the source. -/
def serviceStep (st : ServiceState) : ServiceOp → ServiceState
  | ServiceOp.startSSE => st
  | ServiceOp.startWS => { st with websocket := some () }
  | ServiceOp.wsOpen => { st with reconnectAttempts := 0 }
  | ServiceOp.wsClose =>
    if st.reconnectAttempts < maxReconnectAttempts then
      { st with reconnectAttempts := st.reconnectAttempts + 1 }
    else st
  | ServiceOp.fireReconnect =>
    if st.eventSource.isSome then st
    else if st.websocket.isSome then { st with websocket := some () }
    else st
  | ServiceOp.closeConn =>
    { st with eventSource := none, websocket := none, reconnectAttempts := 0 }

/-- Run a sequence of operations from a freshly constructed instance. -/
def runService (ops : List ServiceOp) : ServiceState :=
  ops.foldl serviceStep initService

/-- The branch the `setTimeout` body of `reconnect()` takes:
`if (this.eventSource) startSSEStream… else if (this.websocket)
startWebSocketStream…`. -/
def reconnectTarget (st : ServiceState) : Option Transport :=
  if st.eventSource.isSome then some Transport.sse
  else if st.websocket.isSome then some Transport.ws
  else none

/-- Expected opening characters of the StreamEvent wire object up to the
type field value. -/
def typeKey : List Char := "\x7b\"type\":\"".data

/-- Expected characters between the type value and the data field value. -/
def dataKey : List Char := ",\"data\":\"".data

/-- Consume an expected literal from the front of the input, or fail. -/
def stripLit : List Char → List Char → Option (List Char)
  | [], s => some s
  | _ :: _, [] => none
  | p :: ps, c :: cs => if c = p then stripLit ps cs else none

/-- Consume characters up to an unescaped closing quote, or fail at end of
input (as `JSON.parse` fails on an unterminated string). -/
def scanString : List Char → Option (List Char × List Char)
  | [] => none
  | c :: rest =>
    if c = '"' then some ([], rest)
    else
      match scanString rest with
      | none => none
      | some (s, r) => some (c :: s, r)

/-- Modelled from the spec: the platform `JSON.parse` (not part of this
repository), restricted to the documented StreamEvent wire shape
`\x7b"type":"…","data":"…"\x7d` without escape sequences — exactly the form
of the specification's scenario lines.  It succeeds on a complete object of
that shape and fails on any truncation of one, matching `JSON.parse` on all
concrete inputs used below.  It instantiates the abstract `parse` parameter
in witnesses and counterexamples. -/
def parseStreamEvent (s : List Char) : Option StreamEvent :=
  match stripLit typeKey s with
  | none => none
  | some r1 =>
    match scanString r1 with
    | none => none
    | some (t, r2) =>
      match stripLit dataKey r2 with
      | none => none
      | some r3 =>
        match scanString r3 with
        | none => none
        | some (d, r4) =>
          if r4 = ['\x7d'] then some { type := String.mk t, data := String.mk d }
          else none

/-- Wire text of a content event carrying `"Hel"`. -/
def jsonHel : List Char := "\x7b\"type\":\"content\",\"data\":\"Hel\"\x7d".data

/-- Wire text of a content event carrying `"lo"`. -/
def jsonLo : List Char := "\x7b\"type\":\"content\",\"data\":\"lo\"\x7d".data

/-- Wire text of a done event with empty payload. -/
def jsonDone : List Char := "\x7b\"type\":\"done\",\"data\":\"\"\x7d".data

/-- Wire text of an error event carrying `"boom"`. -/
def jsonErr : List Char := "\x7b\"type\":\"error\",\"data\":\"boom\"\x7d".data

/-- SSE line framing a content event. -/
def lineHel : List Char := "data: ".data ++ jsonHel

/-- SSE line framing a second content event. -/
def lineLo : List Char := "data: ".data ++ jsonLo

/-- SSE line framing the done event. -/
def lineDone : List Char := "data: ".data ++ jsonDone

/-- SSE line framing the error event. -/
def lineErr : List Char := "data: ".data ++ jsonErr

/-- A complete single-line chunk used for the chunking counterexample. -/
def chunkHel : List Char := lineHel ++ ['\n']

/-! Buffer lemmas -/

theorem addToBuffer_length {α : Type} {buf : List α} (d : α)
    (h : buf.length ≤ maxBufferSize) :
    (addToBuffer buf d).length ≤ maxBufferSize := by
  simp only [addToBuffer]
  split
  · simpa using h
  · next hle =>
    simp only [List.length_append, List.length_cons, List.length_nil,
      Nat.not_lt] at hle ⊢
    omega

theorem addToBuffer_eq {α : Type} (buf : List α) (d : α)
    (h : buf.length ≤ maxBufferSize) :
    addToBuffer buf d = (buf ++ [d]).drop (buf.length + 1 - maxBufferSize) := by
  simp only [addToBuffer]
  split
  · next hgt =>
    simp only [List.length_append, List.length_cons, List.length_nil] at hgt
    have : buf.length + 1 - maxBufferSize = 1 := by omega
    rw [this, List.drop_one]
  · next hle =>
    simp only [List.length_append, List.length_cons, List.length_nil] at hle
    have : buf.length + 1 - maxBufferSize = 0 := by omega
    rw [this, List.drop_zero]

set_option maxRecDepth 4096 in
theorem foldl_addToBuffer {α : Type} (es : List α) (buf : List α)
    (h : buf.length ≤ maxBufferSize) :
    es.foldl addToBuffer buf =
      (buf ++ es).drop (buf.length + es.length - maxBufferSize) := by
  induction es generalizing buf with
  | nil =>
    simp [Nat.sub_eq_zero_of_le h]
  | cons d es ih =>
    rw [List.foldl_cons, ih _ (addToBuffer_length d h), addToBuffer_eq buf d h,
      List.length_drop,
      ← @List.drop_append_of_le_length _ (buf ++ [d]) es _
        (show buf.length + 1 - maxBufferSize ≤ (buf ++ [d]).length by
          simp only [List.length_append, List.length_cons, List.length_nil]
          omega),
      List.drop_drop]
    rw [show buf ++ [d] ++ es = buf ++ d :: es from by
      rw [List.append_assoc, List.singleton_append]]
    simp only [List.length_append, List.length_cons, List.length_nil]
    congr 1
    omega

/-- C4: the buffer never holds more than 1000 entries (preserved by every
`addToBuffer` call), eviction is strict FIFO, and after appending 1001
distinct events the first-appended event is absent while the most recent
1000 remain in original append order (`drop 1` of the appended sequence). -/
theorem buffer_capacity_fifo {α : Type} (buf : List α) (d : α) (es : List α)
    (e : α) (h1 : buf.length ≤ 1000) (h2 : es.length = 1001)
    (h3 : es.Nodup) (h4 : es.head? = some e) :
    (addToBuffer buf d).length ≤ 1000 ∧
    es.foldl addToBuffer [] = es.drop 1 ∧
    e ∉ es.foldl addToBuffer [] := by
  have hmax : maxBufferSize = 1000 := rfl
  have hfold : es.foldl addToBuffer [] = es.drop 1 := by
    rw [foldl_addToBuffer es [] (by simp)]
    have : List.length ([] : List α) + es.length - maxBufferSize = 1 := by
      simp [h2, hmax]
    rw [this]
    simp
  refine ⟨hmax ▸ addToBuffer_length d (hmax ▸ h1), hfold, ?_⟩
  cases es with
  | nil => simp at h4
  | cons a t =>
    have ha : a = e := by simpa using h4
    rw [hfold, List.drop_one, List.tail_cons]
    subst ha
    exact (List.nodup_cons.mp h3).1

/-- C4 witness: `List.range 1001` is 1001 pairwise-distinct events; folding
them into an empty buffer drops exactly the first. -/
theorem buffer_capacity_fifo_witness :
    (List.range 500).length ≤ 1000 ∧
    ((addToBuffer (List.range 500) 7).length ≤ 1000 ∧
      (List.range 1001).foldl addToBuffer [] = (List.range 1001).drop 1 ∧
      0 ∉ (List.range 1001).foldl addToBuffer []) :=
  ⟨by simp,
    buffer_capacity_fifo (List.range 500) 7 (List.range 1001) 0 (by simp)
      (by simp) (List.nodup_range 1001)
      (by rw [List.range_succ_eq_map]; rfl)⟩

/-- C7: a non-2xx response makes `startSSEStream` invoke `onError` exactly
once with the message embedding the status code, invoke neither `onMessage`
nor `onComplete`, and leave the buffer unchanged; no retry occurs. -/
theorem sse_http_error (parse : List Char → Option StreamEvent) (status : Nat)
    (chunks : List (List Char)) (buf : List StreamEvent)
    (h : responseOk status = false) :
    startSSEStream parse { status := status, chunks := chunks } buf =
      { buffer := buf, trace := [Callback.onError (httpErrorMessage status)] } := by
  simp [startSSEStream, h]

/-- C7 witness: an immediate HTTP 500 yields exactly
`onError "HTTP error! status: 500"` and an untouched buffer. -/
theorem sse_http_error_witness :
    responseOk 500 = false ∧
    startSSEStream parseStreamEvent { status := 500, chunks := [chunkHel] }
        [{ type := "content", data := "old" }] =
      { buffer := [{ type := "content", data := "old" }],
        trace := [Callback.onError "HTTP error! status: 500"] } :=
  ⟨by decide,
    (sse_http_error parseStreamEvent 500 [chunkHel]
      [{ type := "content", data := "old" }] (by decide)).trans (by decide)⟩

/-! C9: getRecentBuffer -/

/-- C9 counterexample: the claim quantifies over every count `n`, but at
`n = 0` the code computes `slice(-0) = slice(0)` and returns the whole
buffer, not the last 0 entries. -/
theorem getRecentBuffer_zero_cex :
    getRecentBuffer [0, 1, 2] 0 ≠ specLastN [0, 1, 2] 0 := by decide

/-- C9 amended: for every count `n ≥ 1`, `getRecentBuffer` returns the last
`n` buffered entries in chronological order, and all entries when the buffer
holds no more than `n`; at `n = 0` it returns the entire buffer (an artifact
of `slice(-0)`), and it is total, hence never throws. -/
theorem getRecentBuffer_lastN {α : Type} (buf : List α) (n : Nat)
    (h : 1 ≤ n) :
    getRecentBuffer buf n = specLastN buf n ∧
    (buf.length ≤ n → getRecentBuffer buf n = buf) ∧
    getRecentBuffer buf 0 = buf := by
  have hn : ¬ n = 0 := by omega
  refine ⟨?_, ?_, by simp [getRecentBuffer]⟩
  · calc getRecentBuffer buf n = List.rtake buf n := by
          simp [getRecentBuffer, hn, List.rtake]
      _ = (buf.reverse.take n).reverse := List.rtake_eq_reverse_take_reverse buf n
      _ = specLastN buf n := rfl
  · intro hlen
    simp [getRecentBuffer, hn, Nat.sub_eq_zero_of_le hlen]

/-- C9 witness: with 3 buffered entries, `getRecentBuffer 5` returns exactly
those 3 in chronological order. -/
theorem getRecentBuffer_lastN_witness :
    (1 : Nat) ≤ 5 ∧
    (getRecentBuffer [10, 20, 30] 5 = specLastN [10, 20, 30] 5 ∧
      ([10, 20, 30].length ≤ 5 → getRecentBuffer [10, 20, 30] 5 = [10, 20, 30]) ∧
      getRecentBuffer [10, 20, 30] 0 = [10, 20, 30]) :=
  ⟨by decide, getRecentBuffer_lastN [10, 20, 30] 5 (by decide)⟩

/-! C10: the eventSource handle -/

theorem serviceStep_eventSource (st : ServiceState) (op : ServiceOp)
    (h : st.eventSource = none) : (serviceStep st op).eventSource = none := by
  cases op with
  | startSSE => exact h
  | startWS => exact h
  | wsOpen => exact h
  | wsClose =>
    simp only [serviceStep]
    split <;> exact h
  | fireReconnect =>
    simp only [serviceStep, h, Option.isSome_none, Bool.false_eq_true, if_false]
    split <;> first | rfl | exact h
  | closeConn => rfl

/-- C10: `eventSource` is null after construction and after every sequence of
operations (no method ever assigns it a non-null value), so the reconnect
timer body can only re-invoke the WebSocket stream, never the SSE stream. -/
theorem eventSource_always_none (ops : List ServiceOp) :
    (runService ops).eventSource = none ∧
    reconnectTarget (runService ops) ≠ some Transport.sse := by
  have key : ∀ (l : List ServiceOp) (st : ServiceState), st.eventSource = none →
      (l.foldl serviceStep st).eventSource = none := by
    intro l
    induction l with
    | nil => intro st h; exact h
    | cons op l ih => intro st h; exact ih _ (serviceStep_eventSource st op h)
  have h1 : (runService ops).eventSource = none := key ops initService rfl
  refine ⟨h1, ?_⟩
  simp only [reconnectTarget, h1, Option.isSome_none, Bool.false_eq_true, if_false]
  split <;> simp

/-! SSE line-loop lemmas -/

theorem processLine_nil (parse : List Char → Option StreamEvent) :
    processLine parse [] = none := by
  have h : dataMarker.isPrefixOf [] = false := by decide
  simp [processLine, h]

theorem sseLines_append (parse : List Char → Option StreamEvent)
    (ls1 ls2 : List (List Char)) (st : SSEState) :
    sseLines parse (ls1 ++ ls2) st =
      if (sseLines parse ls1 st).2 then sseLines parse ls1 st
      else sseLines parse ls2 (sseLines parse ls1 st).1 := by
  induction ls1 generalizing st with
  | nil => simp [sseLines]
  | cons l rest ih =>
    cases hp : processLine parse l with
    | none =>
      simp only [List.cons_append, sseLines, hp]
      exact ih st
    | some e =>
      by_cases hc : e.type = "content"
      · simp only [List.cons_append, sseLines, hp, hc, if_true]
        exact ih _
      · by_cases hd : e.type = "done"
        · simp [List.cons_append, sseLines, hp, hc, hd]
        · by_cases he : e.type = "error"
          · simp [List.cons_append, sseLines, hp, hc, hd, he]
          · simp only [List.cons_append, sseLines, hp, hc, hd, he, if_false]
            exact ih _

theorem sseLines_empty_line (parse : List Char → Option StreamEvent)
    (st : SSEState) : sseLines parse [[]] st = (st, false) := by
  simp [sseLines, processLine_nil]

theorem sseLines_nonterminal (parse : List Char → Option StreamEvent)
    (ls : List (List Char)) (st : SSEState)
    (h : ∀ e ∈ ls.filterMap (processLine parse),
      ¬ e.type = "done" ∧ ¬ e.type = "error") :
    sseLines parse ls st =
      ({ buffer := (ls.filterMap (processLine parse)).foldl addToBuffer st.buffer,
         trace := st.trace ++
           ((ls.filterMap (processLine parse)).filter
               (fun e => e.type == "content")).map
             (fun e => Callback.onMessage e.data) }, false) := by
  induction ls generalizing st with
  | nil => simp [sseLines]
  | cons l rest ih =>
    cases hp : processLine parse l with
    | none =>
      simp only [List.filterMap_cons, hp] at h ⊢
      simp only [sseLines, hp]
      exact ih st h
    | some e =>
      simp only [List.filterMap_cons, hp] at h ⊢
      have hde := h e (by simp)
      have htail : ∀ e ∈ rest.filterMap (processLine parse),
          ¬ e.type = "done" ∧ ¬ e.type = "error" :=
        fun x hx => h x (by simp [hx])
      by_cases hc : e.type = "content"
      · simp only [sseLines, hp, hc, if_true]
        rw [ih _ htail]
        simp [hc, List.append_assoc]
      · simp only [sseLines, hp, hc, hde.1, hde.2, if_false]
        rw [ih _ htail]
        have hcf : (e.type == "content") = false := by
          simpa using hc
        simp [hcf]

/-! Chunk framing lemmas -/

theorem splitLines_newline_append (l rest : List Char) (h : '\n' ∉ l) :
    splitLines (l ++ '\n' :: rest) = l :: splitLines rest := by
  induction l with
  | nil => simp [splitLines]
  | cons c l ih =>
    have hc : ¬ c = '\n' := fun hce => h (by simp [hce])
    have htail : '\n' ∉ l := fun hl => h (by simp [hl])
    simp only [List.cons_append, splitLines, hc, if_false, List.append_eq]
    rw [ih htail]

theorem splitLines_chunkOfLines (g : List (List Char))
    (h : ∀ l ∈ g, '\n' ∉ l) :
    splitLines (chunkOfLines g) = g ++ [[]] := by
  induction g with
  | nil => simp [chunkOfLines, splitLines]
  | cons l g ih =>
    have hstep : chunkOfLines (l :: g) = l ++ '\n' :: chunkOfLines g := by
      simp [chunkOfLines, List.append_assoc]
    rw [hstep, splitLines_newline_append l _ (h l (by simp)),
      ih (fun x hx => h x (by simp [hx]))]
    rfl

theorem sseChunks_lineAligned (parse : List Char → Option StreamEvent)
    (groups : List (List (List Char))) (st : SSEState)
    (h : ∀ l ∈ groups.flatten, '\n' ∉ l) :
    sseChunks parse (groups.map chunkOfLines) st =
      sseAllLines parse groups.flatten st := by
  induction groups generalizing st with
  | nil => simp [sseChunks, sseAllLines, sseLines]
  | cons g gs ih =>
    have hg : ∀ l ∈ g, '\n' ∉ l := fun l hl => h l (by simp [hl])
    have hgs : ∀ l ∈ gs.flatten, '\n' ∉ l := fun l hl => h l (by simp [hl])
    simp only [List.map_cons, sseChunks, List.flatten_cons, sseAllLines,
      splitLines_chunkOfLines g hg, sseLines_append]
    rw [sseLines_empty_line]
    cases hr : sseLines parse g st with
    | mk st1 t =>
      cases t with
      | true => simp
      | false =>
        simp only [Bool.false_eq_true, if_false]
        rw [ih st1 hgs]
        rfl

/-! C2: implicit completion -/

theorem sseChunks_nonterminal (parse : List Char → Option StreamEvent)
    (cs : List (List Char)) (st : SSEState)
    (h : ∀ e ∈ sseEvents parse cs, ¬ e.type = "done" ∧ ¬ e.type = "error") :
    sseChunks parse cs st =
      { buffer := (sseEvents parse cs).foldl addToBuffer st.buffer,
        trace := st.trace ++
          ((sseEvents parse cs).filter (fun e => e.type == "content")).map
            (fun e => Callback.onMessage e.data) ++ [Callback.onComplete ""] } := by
  induction cs generalizing st with
  | nil => simp [sseChunks, sseEvents]
  | cons c rest ih =>
    have hsplit : sseEvents parse (c :: rest) =
        (splitLines c).filterMap (processLine parse) ++ sseEvents parse rest := by
      simp [sseEvents]
    rw [hsplit] at h
    have hc : ∀ e ∈ (splitLines c).filterMap (processLine parse),
        ¬ e.type = "done" ∧ ¬ e.type = "error" :=
      fun e he => h e (by simp [he])
    have hrest : ∀ e ∈ sseEvents parse rest,
        ¬ e.type = "done" ∧ ¬ e.type = "error" :=
      fun e he => h e (by simp [he])
    simp only [sseChunks, sseLines_nonterminal parse _ _ hc]
    rw [ih _ hrest, hsplit]
    simp [List.append_assoc]

/-- C2: if the read loop ends (transport `done`) without any `done`/`error`
event having been parsed, `startSSEStream` invokes `onComplete("")` exactly
once, after the `onMessage` call of each content event. -/
theorem sse_implicit_completion (parse : List Char → Option StreamEvent)
    (status : Nat) (cs : List (List Char)) (buf : List StreamEvent)
    (hok : responseOk status = true)
    (h : ∀ e ∈ sseEvents parse cs, ¬ e.type = "done" ∧ ¬ e.type = "error") :
    startSSEStream parse { status := status, chunks := cs } buf =
      { buffer := (sseEvents parse cs).foldl addToBuffer buf,
        trace := ((sseEvents parse cs).filter (fun e => e.type == "content")).map
            (fun e => Callback.onMessage e.data) ++ [Callback.onComplete ""] } := by
  simp only [startSSEStream, hok, if_true]
  rw [sseChunks_nonterminal parse cs _ h]
  simp

/-- C2 witness: a body carrying two content events and one malformed line,
delivered as a single chunk, ends with exactly one `onComplete("")`. -/
theorem sse_implicit_completion_witness :
    responseOk 200 = true ∧
    startSSEStream parseStreamEvent
        { status := 200,
          chunks := [lineHel ++ '\n' :: "data: oops".data ++ '\n' :: lineLo] }
        [] =
      { buffer := [{ type := "content", data := "Hel" },
                   { type := "content", data := "lo" }],
        trace := [Callback.onMessage "Hel", Callback.onMessage "lo",
                  Callback.onComplete ""] } :=
  ⟨by decide,
    (sse_implicit_completion parseStreamEvent 200
        [lineHel ++ '\n' :: "data: oops".data ++ '\n' :: lineLo] []
        (by decide) (by decide)).trans (by decide)⟩

/-! C1: a valid stream ending in a done event -/

theorem sseLines_valid_done (parse : List Char → Option StreamEvent)
    (cs : List StreamEvent) (elast : StreamEvent) :
    ∀ (ls : List (List Char)) (st : SSEState),
      List.Forall₂ (fun l e => processLine parse l = some e) ls (cs ++ [elast]) →
      (∀ e ∈ cs, e.type = "content") → elast.type = "done" →
      sseLines parse ls st =
        ({ buffer := (cs ++ [elast]).foldl addToBuffer st.buffer,
           trace := st.trace ++ (cs.map fun e => Callback.onMessage e.data) ++
             [Callback.onComplete elast.data] }, true) := by
  induction cs with
  | nil =>
    intro ls st hf hc hd
    simp only [List.nil_append] at hf
    cases hf with
    | cons hle htail =>
      cases htail
      have hnc : ¬ elast.type = "content" := by rw [hd]; decide
      simp [sseLines, hle, hnc, hd]
  | cons c cs ih =>
    intro ls st hf hc hd
    simp only [List.cons_append] at hf
    cases hf with
    | cons hlc htail =>
      have hcc : c.type = "content" := hc c (by simp)
      simp only [sseLines, hlc, hcc, if_true]
      rw [ih _ _ htail (fun e he => hc e (by simp [he])) hd]
      simp [List.append_assoc]

/-- C1: for a body that is a sequence of valid `data: `-framed event lines —
content events followed by one done event — delivered in chunks aligned on
line boundaries, `startSSEStream` invokes `onMessage` once per content event
in arrival order and then `onComplete` exactly once with the done payload. -/
theorem sse_valid_stream_callbacks (parse : List Char → Option StreamEvent)
    (groups : List (List (List Char))) (ls : List (List Char))
    (cs : List StreamEvent) (elast : StreamEvent) (buf : List StreamEvent)
    (hg : groups.flatten = ls) (hnl : ∀ l ∈ ls, '\n' ∉ l)
    (hv : List.Forall₂ (fun l e => processLine parse l = some e) ls
      (cs ++ [elast]))
    (hc : ∀ e ∈ cs, e.type = "content") (hd : elast.type = "done") :
    startSSEStream parse
        { status := 200, chunks := groups.map chunkOfLines } buf =
      { buffer := (cs ++ [elast]).foldl addToBuffer buf,
        trace := (cs.map fun e => Callback.onMessage e.data) ++
          [Callback.onComplete elast.data] } := by
  have hok : responseOk 200 = true := by decide
  simp only [startSSEStream, hok, if_true]
  rw [sseChunks_lineAligned parse groups _ (hg ▸ hnl), hg, sseAllLines,
    sseLines_valid_done parse cs elast ls _ hv hc hd]
  simp

/-- C1 witness: the specification's scenario — `Hel`, `lo`, then `done` —
with one line per chunk produces `onMessage "Hel"`, `onMessage "lo"`,
`onComplete ""` and three buffered events. -/
theorem sse_valid_stream_callbacks_witness :
    [[lineHel], [lineLo], [lineDone]].flatten = [lineHel, lineLo, lineDone] ∧
    startSSEStream parseStreamEvent
        { status := 200,
          chunks := [[lineHel], [lineLo], [lineDone]].map chunkOfLines } [] =
      { buffer := [{ type := "content", data := "Hel" },
                   { type := "content", data := "lo" },
                   { type := "done", data := "" }],
        trace := [Callback.onMessage "Hel", Callback.onMessage "lo",
                  Callback.onComplete ""] } :=
  ⟨by decide,
    (sse_valid_stream_callbacks parseStreamEvent
        [[lineHel], [lineLo], [lineDone]] [lineHel, lineLo, lineDone]
        [{ type := "content", data := "Hel" }, { type := "content", data := "lo" }]
        { type := "done", data := "" } [] (by decide) (by decide)
        (List.Forall₂.cons (by decide)
          (List.Forall₂.cons (by decide)
            (List.Forall₂.cons (by decide) List.Forall₂.nil)))
        (by decide) rfl).trans (by decide)⟩

/-! C3: chunking dependence -/

/-- C3 counterexample: the same body text `data: ...\n`, containing one valid
content event, delivered whole versus split mid-line after the 10th
character.  The concatenated bytes are identical, yet the whole-chunk run
dispatches the content event while the split run drops it: each chunk is
line-split independently with no carry of a partial trailing line
(`JSON.parse` fails on the truncated fragment, and the tail fragment does not
start with `data: `). -/
theorem sse_chunking_dependence_cex :
    List.flatten [chunkHel] = List.flatten [chunkHel.take 10, chunkHel.drop 10] ∧
    sseChunks parseStreamEvent [chunkHel] { buffer := [], trace := [] } ≠
      sseChunks parseStreamEvent [chunkHel.take 10, chunkHel.drop 10]
        { buffer := [], trace := [] } := by
  constructor
  · decide
  · decide

/-- C3 amended: chunking-independence holds exactly for line-aligned
chunkings — any two ways of grouping the same newline-free lines into
`'\n'`-terminated chunks buffer the same StreamEvents and produce the same
callback sequence (both equal the single-pass run over the flat line list);
when a chunk boundary falls inside a line the outputs can differ, as the
counterexample shows, because each chunk is split into lines independently
with no partial-line carry. -/
theorem sse_chunking_line_aligned (parse : List Char → Option StreamEvent)
    (g1 g2 : List (List (List Char))) (st : SSEState)
    (hj : g1.flatten = g2.flatten) (hnl : ∀ l ∈ g1.flatten, '\n' ∉ l) :
    sseChunks parse (g1.map chunkOfLines) st =
      sseChunks parse (g2.map chunkOfLines) st := by
  rw [sseChunks_lineAligned parse g1 st hnl,
    sseChunks_lineAligned parse g2 st (hj ▸ hnl), hj]

/-- C3 amended witness: one line per chunk versus both lines in one chunk. -/
theorem sse_chunking_line_aligned_witness :
    [[lineHel], [lineLo]].flatten = [[lineHel, lineLo]].flatten ∧
    sseChunks parseStreamEvent ([[lineHel], [lineLo]].map chunkOfLines)
        { buffer := [], trace := [] } =
      sseChunks parseStreamEvent ([[lineHel, lineLo]].map chunkOfLines)
        { buffer := [], trace := [] } :=
  ⟨by decide,
    sse_chunking_line_aligned parseStreamEvent [[lineHel], [lineLo]]
      [[lineHel, lineLo]] { buffer := [], trace := [] } (by decide) (by decide)⟩

/-! C5: reconnect backoff -/

theorem closeSequence_stuck (m attempts : Nat)
    (h : maxReconnectAttempts ≤ attempts) : closeSequence m attempts = [] := by
  cases m with
  | zero => rfl
  | succ m =>
    simp only [closeSequence, onCloseEvent, Nat.not_lt.mpr h, if_false]

/-- C5: starting from a fresh counter, consecutive close events schedule
delays 2000, 4000, 8000, 16000, 16000 ms — the k-th attempt waits
`min(1000 * 2^k, 16000)` with the counter incremented before computing the
delay — and once the counter reaches 5 no further attempt is scheduled. -/
theorem ws_reconnect_backoff (n k a : Nat) (h1 : 1 ≤ k) (h2 : k ≤ 5)
    (h3 : 5 ≤ a) :
    closeSequence n 0 = [2000, 4000, 8000, 16000, 16000].take n ∧
    (closeSequence 5 0)[k - 1]? = some (min (1000 * 2 ^ k) 16000) ∧
    onCloseEvent a = none := by
  refine ⟨?_, ?_, ?_⟩
  · match n with
    | 0 => decide
    | 1 => decide
    | 2 => decide
    | 3 => decide
    | 4 => decide
    | 5 => decide
    | m + 6 =>
      have h6 : closeSequence (m + 6) 0 =
          2000 :: 4000 :: 8000 :: 16000 :: 16000 :: closeSequence (m + 1) 5 := by
        simp [closeSequence, onCloseEvent, reconnectDelay, maxReconnectAttempts]
      rw [h6, closeSequence_stuck (m + 1) 5 (le_refl 5),
        List.take_of_length_le (by simp)]
  · interval_cases k <;> decide
  · simp only [onCloseEvent, maxReconnectAttempts]
    rw [if_neg (Nat.not_lt.mpr h3)]

/-- C5 witness: seven consecutive closes from a fresh counter schedule
exactly the five capped delays; the counter value 9 schedules nothing. -/
theorem ws_reconnect_backoff_witness :
    (1 : Nat) ≤ 5 ∧
    (closeSequence 7 0 = [2000, 4000, 8000, 16000, 16000].take 7 ∧
      (closeSequence 5 0)[5 - 1]? = some (min (1000 * 2 ^ 5) 16000) ∧
      onCloseEvent 9 = none) :=
  ⟨by decide, ws_reconnect_backoff 7 5 9 (by decide) (by decide) (by decide)⟩

/-! C6: error-event dispatch on the two transports -/

/-- C6 counterexample: on the WebSocket transport an `error` event is not
terminal — a content event arriving after it is still dispatched, and the
socket has not been closed, contradicting a return to IDLE with reading
stopped. -/
theorem ws_error_not_terminal_cex :
    (wsFrames parseStreamEvent [jsonErr, jsonHel]
        { buffer := [], trace := [], wsOpen := true }).trace =
      [Callback.onError "boom", Callback.onMessage "Hel"] ∧
    (wsFrames parseStreamEvent [jsonErr, jsonHel]
        { buffer := [], trace := [], wsOpen := true }).wsOpen = true := by
  constructor
  · decide
  · decide

/-- C6 amended: an `error` StreamEvent is terminal on the SSE transport —
the line loop buffers it, invokes `onError` once and returns, abandoning the
rest of the stream.  On the WebSocket transport the handler dispatches the
same `onError` and buffers the event, but does not close the socket and does
not stop: subsequent frames are still processed; only `done` triggers
teardown. -/
theorem error_event_dispatch (parse : List Char → Option StreamEvent)
    (l f : List Char) (e : StreamEvent) (lrest frest : List (List Char))
    (st : SSEState) (wst : WSState)
    (hl : processLine parse l = some e) (hf : parse f = some e)
    (he : e.type = "error") (hopen : wst.wsOpen = true) :
    sseLines parse (l :: lrest) st =
      ({ buffer := addToBuffer st.buffer e,
         trace := st.trace ++ [Callback.onError e.data] }, true) ∧
    wsFrames parse (f :: frest) wst =
      wsFrames parse frest
        { wst with buffer := addToBuffer wst.buffer e,
                   trace := wst.trace ++ [Callback.onError e.data] } ∧
    (wsMessage parse f wst).wsOpen = wst.wsOpen := by
  have hnc : ¬ e.type = "content" := by rw [he]; decide
  have hnd : ¬ e.type = "done" := by rw [he]; decide
  refine ⟨?_, ?_, ?_⟩
  · simp [sseLines, hl, hnc, hnd, he]
  · simp [wsFrames, hopen, wsMessage, hf, hnc, hnd, he]
  · simp [wsMessage, hf, hnc, hnd, he]

/-- C6 witness: a concrete error event on both transports. -/
theorem error_event_dispatch_witness :
    processLine parseStreamEvent lineErr =
        some { type := "error", data := "boom" } ∧
    (sseLines parseStreamEvent [lineErr, lineHel] { buffer := [], trace := [] } =
        ({ buffer := [{ type := "error", data := "boom" }],
           trace := [Callback.onError "boom"] }, true) ∧
      wsFrames parseStreamEvent [jsonErr, jsonHel]
          { buffer := [], trace := [], wsOpen := true } =
        wsFrames parseStreamEvent [jsonHel]
          { buffer := [{ type := "error", data := "boom" }],
            trace := [Callback.onError "boom"], wsOpen := true } ∧
      (wsMessage parseStreamEvent jsonErr
          { buffer := [], trace := [], wsOpen := true }).wsOpen = true) :=
  ⟨by decide,
    (error_event_dispatch parseStreamEvent lineErr jsonErr
        { type := "error", data := "boom" } [lineHel] [jsonHel]
        { buffer := [], trace := [] } { buffer := [], trace := [], wsOpen := true }
        (by decide) (by decide) rfl rfl).imp id
      (fun h => ⟨h.1.trans (by decide), h.2⟩)⟩

/-! C8: malformed lines and frames are dropped without effect -/

/-- C8: a line (or WebSocket frame) that fails to yield an event is dropped
without invoking any callback and without terminating the stream — every run
equals the run over only the event-yielding lines (frames), so valid events
interspersed with malformed ones are buffered and dispatched exactly as they
would be without the malformed ones. -/
theorem malformed_lines_dropped (parse : List Char → Option StreamEvent)
    (ls fs : List (List Char)) (st : SSEState) (wst : WSState) :
    sseLines parse ls st =
      sseLines parse (ls.filter (fun l => (processLine parse l).isSome)) st ∧
    wsFrames parse fs wst =
      wsFrames parse (fs.filter (fun f => (parse f).isSome)) wst := by
  constructor
  · induction ls generalizing st with
    | nil => rfl
    | cons l rest ih =>
      cases hp : processLine parse l with
      | none =>
        simp only [List.filter_cons, hp, Option.isSome_none, Bool.false_eq_true,
          if_false, sseLines]
        exact ih st
      | some e =>
        simp only [List.filter_cons, hp, Option.isSome_some, if_true, sseLines]
        by_cases hc : e.type = "content"
        · simp only [hc, if_true]
          exact ih _
        · by_cases hd : e.type = "done"
          · simp [hc, hd]
          · by_cases he : e.type = "error"
            · simp [hc, hd, he]
            · simp only [hc, hd, he, if_false]
              exact ih _
  · induction fs generalizing wst with
    | nil => rfl
    | cons f rest ih =>
      have hclosed : ∀ (xs : List (List Char)) (w : WSState), w.wsOpen = false →
          wsFrames parse xs w = w := by
        intro xs w hw
        cases xs <;> simp [wsFrames, hw]
      cases hw : wst.wsOpen with
      | false =>
        rw [hclosed (f :: rest) wst hw,
          hclosed (List.filter (fun f => (parse f).isSome) (f :: rest)) wst hw]
      | true =>
        cases hp : parse f with
        | none =>
          have hmsg : wsMessage parse f wst = wst := by
            simp [wsMessage, hp]
          simp only [List.filter_cons, hp, Option.isSome_none, Bool.false_eq_true,
            if_false, wsFrames, hw, if_true, hmsg]
          exact ih wst
        | some e =>
          simp only [List.filter_cons, hp, Option.isSome_some, if_true, wsFrames,
            hw]
          exact ih _
